import Mathlib

/-!
# Verification of the stapler PDF-merge CLI

A shallow embedding of the pipeline implemented in the repository's main
script (URL extraction, Drive file-id extraction, byte-signature file-type
sniffing, PDF merging, the access-probe gate and the per-file
download/convert loop of `processFiles`, and the direct-mode action),
together with theorems settling the specification claims.

Strings are modelled as `List Char`; file contents as `List Nat` (byte
values).  Network and imaging-library behaviour is modelled by oracle
functions supplied as parameters, mirroring exactly where the script calls
out to axios / sharp / pdf-lib.
-/

/-- Convert a string literal to the `List Char` representation used
throughout the development. -/
def lc (s : String) : List Char := s.data

/-! ## URL extractor (`parseUrls`, source lines 12-29) -/

/-- ASCII whitespace characters matched by the JS `\s` class (the Unicode
members of the class are irrelevant to the inputs modelled here). -/
def jsWhitespace (c : Char) : Bool :=
  c = ' ' || c = '\t' || c = '\n' || c = '\r' || c = '\x0b' || c = '\x0c'

/-- A character consumed as a separator by the split regex `[\n,]|\s+`:
a newline, a comma, or any whitespace character. -/
def isSepChar (c : Char) : Bool :=
  c = '\n' || c = ',' || jsWhitespace c

/-- The pieces produced by splitting on the separator characters, empty
pieces included — the piece decomposition of `String.prototype.split` with
the regex `[\n,]|\s+` (the regex may merge adjacent separators into one
match; that only changes how many empty pieces appear, and those are
filtered away by `parseUrls`, so splitting at every separator character is
an equivalent decomposition). -/
def splitAux : List Char → List (List Char)
  | [] => [[]]
  | c :: cs =>
    match splitAux cs with
    | [] => [[]]
    | g :: gs => if isSepChar c then [] :: g :: gs else (c :: g) :: gs

/-- Model of `String.prototype.trim`: strip leading and trailing whitespace. -/
def trim (t : List Char) : List Char :=
  ((t.dropWhile jsWhitespace).reverse.dropWhile jsWhitespace).reverse

/-- Boolean substring containment, the model of `String.prototype.includes`:
`containsSeq s pat` holds when `pat` occurs contiguously inside `s`. -/
def startsWithSeq : List Char → List Char → Bool
  | _, [] => true
  | [], _ :: _ => false
  | c :: cs, p :: ps => c = p && startsWithSeq cs ps

def containsSeq (s pat : List Char) : Bool :=
  match s with
  | [] => pat.isEmpty
  | _ :: cs => startsWithSeq s pat || containsSeq cs pat

/-- The filter applied to each token (source lines 20-26): keep a token iff
it contains the Drive host marker together with the literal `/file/d/` or
the literal `id=`. -/
def isDriveUrl (t : List Char) : Bool :=
  containsSeq t (lc ("drive.google.com")) &&
    (containsSeq t (lc ("/file/d/")) || containsSeq t (lc ("id=")))

/-- The `tokens` intermediate of `parseUrls` (source lines 14-17): the
split pieces, trimmed, with empty tokens dropped. -/
def splitTokens (input : List Char) : List (List Char) :=
  ((splitAux input).map trim).filter (fun t => 0 < t.length)

/-- Function `parseUrls` (source lines 12-29): split the input on newlines, commas
and whitespace, trim each piece, drop empty pieces, and keep only the
tokens that look like Google Drive URLs. -/
def parseUrls (input : List Char) : List (List Char) :=
  (splitTokens input).filter isDriveUrl

/-! ## File-id extraction (`extractFileId`, source lines 32-47) -/

/-- A character of the id capture class `[a-zA-Z0-9-_]`. -/
def isIdChar (c : Char) : Bool :=
  ('a' ≤ c && c ≤ 'z') || ('A' ≤ c && c ≤ 'Z') || ('0' ≤ c && c ≤ '9') ||
    c = '-' || c = '_'

/-- Leftmost regex match of `pre` followed by a nonempty run of id
characters; returns the captured run.  Mirrors `url.match(pattern)` for the
patterns of `extractFileId`: at each start position, if the literal prefix
matches and at least one id character follows, the (maximal) id run is
captured; otherwise scanning resumes one position to the right. -/
def findCapture (pre : List Char) : List Char → Option (List Char)
  | [] => none
  | c :: cs =>
    if startsWithSeq (c :: cs) pre then
      let run := ((c :: cs).drop pre.length).takeWhile isIdChar
      if run.isEmpty then findCapture pre cs else some run
    else
      findCapture pre cs

/-- Function `extractFileId` (source lines 32-47): try the three patterns
`/file/d/<id>`, `id=<id>`, `/d/<id>` in order; `none` models the thrown
`Invalid Google Drive URL` error. -/
def extractFileId (url : List Char) : Option (List Char) :=
  match findCapture (lc ("/file/d/")) url with
  | some m => some m
  | none =>
    match findCapture (lc ("id=")) url with
    | some m => some m
    | none => findCapture (lc ("/d/")) url

/-- Function `getDirectDownloadUrl` (source lines 50-52). -/
def getDirectDownloadUrl (fileId : List Char) : List Char :=
  lc ("https://drive.google.com/uc?export=download&id=") ++ fileId

example : parseUrls (lc ("see https://drive.google.com/file/d/abc12/view ok")) =
    [lc ("https://drive.google.com/file/d/abc12/view")] := by decide
example : extractFileId (lc ("https://drive.google.com/file/d/abc12/view")) =
    some (lc ("abc12")) := by decide
example : extractFileId (lc ("https://drive.google.com/uc?id=")) = none := by decide
example : parseUrls (lc ("https://drive.google.com/d/abc")) = [] := by decide

/-! ## Type sniffer (`getFileType`, source lines 76-119) -/

inductive FileType where
  | pdf
  | image
deriving DecidableEq, Repr

/-- The bytes of the string `%PDF`, compared against `buffer.slice(0, 4)`. -/
def pdfMagic : List Nat := [0x25, 0x50, 0x44, 0x46]

/-- The leading-byte signature table (source lines 86-94), in the object's
insertion order. -/
def signatures : List (List Char × List Nat) :=
  [ (lc ("png"), [0x89, 0x50, 0x4e, 0x47]),
    (lc ("jpg"), [0xff, 0xd8, 0xff]),
    (lc ("jpeg"), [0xff, 0xd8, 0xff]),
    (lc ("gif"), [0x47, 0x49, 0x46]),
    (lc ("bmp"), [0x42, 0x4d]),
    (lc ("webp"), [0x52, 0x49, 0x46, 0x46]),
    (lc ("heic"), [0x00, 0x00, 0x00, 0x18, 0x66, 0x74, 0x79, 0x70, 0x68, 0x65, 0x69, 0x63]) ]

/-- The bytes of `ftypheic` and `ftypmif1`, compared against
`buffer.slice(4, 12)`. -/
def ftypheicBytes : List Nat := [0x66, 0x74, 0x79, 0x70, 0x68, 0x65, 0x69, 0x63]

def ftypmif1Bytes : List Nat := [0x66, 0x74, 0x79, 0x70, 0x6d, 0x69, 0x66, 0x31]

/-- Model of `signature.every((byte, index) => buffer[index] === byte)`: an
out-of-range index yields `undefined` in JS, which compares unequal to any
byte, modelled here by `List.get?` returning `none`. -/
def sigMatches (buffer sig : List Nat) : Bool :=
  sig.enum.all (fun p => buffer.get? p.1 == some p.2)

/-- The message of the error thrown for an unrecognized buffer, after the
wrapping applied by the surrounding `catch` (source lines 115-118). -/
def unsupportedMsg : List Char :=
  lc ("Failed to determine file type: Unsupported file type")

/-- Function `getFileType` (source lines 76-119) on the bytes of the downloaded
file: `%PDF` prefix classifies as pdf; a match in the signature table, or
the secondary `ftypheic`/`ftypmif1` check at bytes 4..12, classifies as
image; anything else is the unsupported-file-type error.  (The `heic` row
of the table runs the same prefix comparison as the other rows, so the
source's cosmetic `if (type === 'heic')` split is folded into one `any`.) -/
def getFileType (buffer : List Nat) : Except (List Char) FileType :=
  if buffer.take 4 = pdfMagic then
    .ok .pdf
  else if signatures.any (fun s => sigMatches buffer s.2) then
    .ok .image
  else if (buffer.drop 4).take 8 = ftypheicBytes ∨ (buffer.drop 4).take 8 = ftypmif1Bytes then
    .ok .image
  else
    .error unsupportedMsg

example : getFileType [0x25, 0x50, 0x44, 0x46, 0x2d] = .ok .pdf := rfl
example : getFileType [0x89, 0x50, 0x4e, 0x47, 0x0d] = .ok .image := rfl
example : getFileType [0, 0, 0, 0x20, 0x66, 0x74, 0x79, 0x70, 0x68, 0x65, 0x69, 0x63] =
    .ok .image := rfl
example : getFileType [] = .error unsupportedMsg := rfl
example : getFileType [0x25, 0x50, 0x44] = .error unsupportedMsg := rfl

/-! ## Merger (`mergePdfs`, source lines 171-190)

`PDFDocument.load` is modelled by an oracle `load` sending a byte buffer to
its list of pages (`none` models a load failure, i.e. a thrown error that
aborts the merge before `fs.writeFile` runs).  Pages are an abstract type
`α`.  A `some` result models the serialized document written to the
destination path; `none` models the abort, where no output file is
written. -/

/-- Model of `pdf.getPageIndices()`: the indices `0, …, pageCount - 1`. -/
def getPageIndices {α : Type} (pages : List α) : List Nat :=
  List.range pages.length

/-- Model of `mergedPdf.copyPages(pdf, pageIndices)`: the pages of `pdf` at the
given indices, in the order of the index list. -/
def copyPages {α : Type} (pages : List α) (idxs : List Nat) : List α :=
  idxs.filterMap (fun i => pages.get? i)

/-- Function `mergePdfs` (source lines 171-190): load each buffer in order, copy all
of its pages onto the accumulating document; any load failure aborts the
whole merge and nothing is written. -/
def mergePdfs {α β : Type} (load : β → Option (List α)) : List β → Option (List α)
  | [] => some []
  | b :: bs =>
    match load b with
    | none => none
    | some pdf =>
      match mergePdfs load bs with
      | none => none
      | some rest => some (copyPages pdf (getPageIndices pdf) ++ rest)

example : mergePdfs (fun b : Option (List Nat) => b) [some [0, 1], some [2]] =
    some [0, 1, 2] := by decide
example : mergePdfs (fun b : Option (List Nat) => b) [some [0, 1], none] = none := by
  decide

/-! ## Access probe (`testUrlAccess`, source lines 193-244)

The axios range request is modelled by an oracle from the direct-download
URL to a `NetResult`: either a response whose content type is or is not
HTML (statuses 200/206 pass `validateStatus`), or a thrown error carrying
an optional HTTP status, an optional error code, and a message. -/

inductive NetResult where
  | resp (contentTypeHtml : Bool)
  | err (status : Option Nat) (code : Option (List Char)) (msg : List Char)

/-- The result object built by `testUrlAccess`. -/
structure AccessResult where
  success : Bool
  url : List Char
  index : Nat
  fileId : Option (List Char)
  error : Option (List Char)
deriving DecidableEq

/-- The conditional chain of source lines 232-241 mapping a thrown error to
a reason string (`error.message || "Unknown error"` is the final arm). -/
def errorReason (status : Option Nat) (code : Option (List Char)) (msg : List Char) :
    List Char :=
  if status = some 403 then lc ("Permission denied")
  else if status = some 404 then lc ("File not found")
  else if code = some (lc ("ENOTFOUND")) then lc ("Network error")
  else if code = some (lc ("ECONNRESET")) then lc ("Connection reset")
  else if msg = [] then lc ("Unknown error")
  else msg

/-- Function `testUrlAccess` (source lines 193-244).  A failing `extractFileId`
throws inside the `try`, reaching the same `catch` with no response and no
code; an HTML content type is treated as the Drive error interstitial. -/
def testUrlAccess (net : List Char → NetResult) (url : List Char) (index : Nat) :
    AccessResult :=
  match extractFileId url with
  | none =>
    { success := false, url := url, index := index, fileId := none,
      error := some (errorReason none none (lc ("Invalid Google Drive URL: ") ++ url)) }
  | some fid =>
    match net (getDirectDownloadUrl fid) with
    | .resp contentTypeHtml =>
      if contentTypeHtml then
        { success := false, url := url, index := index, fileId := none,
          error := some (lc ("Permission denied or file not accessible")) }
      else
        { success := true, url := url, index := index, fileId := some fid, error := none }
    | .err status code msg =>
      { success := false, url := url, index := index, fileId := none,
        error := some (errorReason status code msg) }

/-! ## `processFiles` (source lines 396-524)

The environment bundles the oracles for everything the script delegates:
the probe network call, `downloadFile` (the bytes that end up in the temp
file, or a transport error message), `imageToPdf` (whose internals are
sharp/pdf-lib calls; the oracle maps the downloaded bytes to the produced
one-page PDF buffer or to the final wrapped error message), and
`PDFDocument.load` for the merge, with pages abstracted as `α`. -/

structure Env (α : Type) where
  net : List Char → NetResult
  download : List Char → Except (List Char) (List Nat)
  convert : List Nat → Except (List Char) (List Nat)
  load : List Nat → Option (List α)

/-- One iteration of the main loop's `try` block (source lines 444-472):
extract the id, download, sniff the type, and produce the PDF buffer (the
raw bytes for a pdf, the converted buffer for an image).  The `Bool`
records whether `downloadFile` was invoked.  An `error` result is the
message caught by the per-file `catch`. -/
def processOne {α : Type} (env : Env α) (url : List Char) :
    Bool × Except (List Char) (List Nat) :=
  match extractFileId url with
  | none => (false, .error (lc ("Invalid Google Drive URL: ") ++ url))
  | some fid =>
    match env.download (getDirectDownloadUrl fid) with
    | .error e => (true, .error (lc ("Failed to download file: ") ++ e))
    | .ok bytes =>
      match getFileType bytes with
      | .error e => (true, .error e)
      | .ok .pdf => (true, .ok bytes)
      | .ok .image =>
        match env.convert bytes with
        | .error e => (true, .error e)
        | .ok buf => (true, .ok buf)

/-- A record pushed onto `failedFiles` (source lines 475-479). -/
structure FileFailure where
  url : List Char
  index : Nat
  error : List Char
deriving DecidableEq

/-- The state accumulated by the main loop: `pdfBuffers`, `failedFiles`,
and the 1-based indices of the files for which `downloadFile` ran. -/
structure LoopState where
  pdfBuffers : List (List Nat)
  failedFiles : List FileFailure
  downloads : List Nat
deriving DecidableEq

/-- The main `for` loop of `processFiles` (source lines 440-490), with `i`
the 0-based index of the first remaining URL; each URL either contributes
its buffer to `pdfBuffers` or its error to `failedFiles`, in input order. -/
def mainLoopFrom {α : Type} (env : Env α) : Nat → List (List Char) → LoopState
  | _, [] => ⟨[], [], []⟩
  | i, url :: rest =>
    let r := processOne env url
    let st := mainLoopFrom env (i + 1) rest
    let dls := (if r.1 then [i + 1] else []) ++ st.downloads
    match r.2 with
    | .ok buf => ⟨buf :: st.pdfBuffers, st.failedFiles, dls⟩
    | .error e => ⟨st.pdfBuffers, ⟨url, i + 1, e⟩ :: st.failedFiles, dls⟩

def mainLoop {α : Type} (env : Env α) (urls : List (List Char)) : LoopState :=
  mainLoopFrom env 0 urls

/-- The access tests of source lines 404-406: probe every URL (their
concurrent dispatch is join-before-proceed, so the aggregation is the
in-order list of results, indices 1-based). -/
def accessTests {α : Type} (env : Env α) (urls : List (List Char)) : List AccessResult :=
  urls.enum.map (fun p => testUrlAccess env.net p.2 (p.1 + 1))

/-- The observable outcome of one `processFiles` call: the thrown
permission-gate error with its reported failing probes, the thrown
all-files-failed error with the recorded per-file failures, a merge
failure, or a successful merge (the written document's pages together with
the non-fatal per-file failures). -/
inductive ProcResult (α : Type) where
  | probeFailed (failed : List AccessResult)
  | allFailed (failed : List FileFailure)
  | mergeError
  | success (pages : List α) (failed : List FileFailure)

/-- The outcome of `processFiles` paired with the 1-based indices of the
URLs for which a download was performed. -/
structure ProcTrace (α : Type) where
  result : ProcResult α
  downloads : List Nat

/-- Function `processFiles` (source lines 396-524): probe all URLs; if any probe
failed, report the failing subset and throw the permission-check error
before any download; otherwise run the main loop, throw the
all-files-failed error when no buffer was produced, and finally merge the
successful buffers in input order. -/
def processFiles {α : Type} (env : Env α) (urls : List (List Char)) : ProcTrace α :=
  let tests := accessTests env urls
  let failedUrls := tests.filter (fun t => !t.success)
  if 0 < failedUrls.length then
    ⟨.probeFailed failedUrls, []⟩
  else
    let st := mainLoop env urls
    if st.pdfBuffers.length = 0 then
      ⟨.allFailed st.failedFiles, st.downloads⟩
    else
      match mergePdfs env.load st.pdfBuffers with
      | none => ⟨.mergeError, st.downloads⟩
      | some pages => ⟨.success pages st.failedFiles, st.downloads⟩

/-- The `catch` of source lines 517-523: every error thrown inside
`processFiles` — the permission-check gate, the all-files-failed error,
and a merge error — is caught *inside `processFiles` itself* and answered
with `process.exit(1)`, in interactive mode just as in direct mode.  Only
a successful merge returns normally to the caller. -/
def processFilesExits {α : Type} (env : Env α) (urls : List (List Char)) : Bool :=
  match (processFiles env urls).result with
  | .success _ _ => false
  | _ => true

/-! ## Direct mode (`program.action`, source lines 551-600) -/

/-- The observable outcome of the direct-mode action. -/
inductive DirectOutcome (α : Type) where
  | usageError
  | singleUrlNotice (url : List Char)
  | collisionError
  | ran (trace : ProcTrace α)

/-- The direct-mode action (source lines 551-600): parse the URLs; zero
URLs is a usage error (exit 1); exactly one URL prints the informational
notice and returns before any network or filesystem pipeline work; with
two or more URLs, a pre-existing output file is a collision error (exit
1), and otherwise `processFiles` runs.  `outputExists` models the
`fs.pathExists(outputPath)` check. -/
def directAction {α : Type} (env : Env α) (outputExists : Bool) (input : List Char) :
    DirectOutcome α :=
  let urls := parseUrls input
  if urls.length = 0 then .usageError
  else if urls.length = 1 then .singleUrlNotice urls.headI
  else if outputExists then .collisionError
  else .ran (processFiles env urls)

/-! ## Theorems -/

/-- Copying a document's pages at its own page indices reproduces the page
list. -/
theorem copyPages_getPageIndices {α : Type} (l : List α) :
    copyPages l (getPageIndices l) = l := by
  have h : ∀ (n : ℕ) (l : List α), n = l.length →
      (List.range n).filterMap (fun i => l.get? i) = l := by
    intro n
    induction n with
    | zero =>
      intro l hl
      cases l with
      | nil => rfl
      | cons a t => simp at hl
    | succ m ih =>
      intro l hl
      cases l with
      | nil => simp at hl
      | cons a t =>
        simp only [List.length_cons, Nat.succ.injEq] at hl
        have he : ((fun i => (a :: t).get? i) ∘ Nat.succ) = fun i => t.get? i := by
          funext i
          simp [List.get?_cons_succ]
        simp only [List.range_succ_eq_map, List.filterMap_cons, List.get?_cons_zero,
          List.filterMap_map, he, ih t hl]
  exact h l.length l rfl

/-- If some buffer in the list fails to load, the merge aborts. -/
theorem mergePdfs_eq_none {α β : Type} (load : β → Option (List α)) :
    ∀ bufs : List β, (∃ b ∈ bufs, load b = none) → mergePdfs load bufs = none := by
  intro bufs
  induction bufs with
  | nil => rintro ⟨b, hb, -⟩; simp at hb
  | cons b bs ih =>
    rintro ⟨c, hc, hload⟩
    rcases List.mem_cons.mp hc with h | h
    · subst h; simp [mergePdfs, hload]
    · cases hb : load b with
      | none => simp [mergePdfs, hb]
      | some pdf => simp [mergePdfs, hb, ih ⟨c, h, hload⟩]

/-- If every buffer loads, the merge produces exactly the concatenation of
the loaded page lists, in input order. -/
theorem mergePdfs_eq_some {α β : Type} (load : β → Option (List α)) :
    ∀ (bufs : List β) (pss : List (List α)),
      List.Forall₂ (fun b ps => load b = some ps) bufs pss →
      mergePdfs load bufs = some pss.flatten := by
  intro bufs pss h
  induction h with
  | nil => rfl
  | cons hb _ ih =>
    simp only [mergePdfs, hb, ih, List.flatten_cons, copyPages_getPageIndices]

/-- C1: for every ordered sequence of independently loadable PDF buffers,
the merger produces the concatenation of each input's pages in input order,
with page count the sum of the inputs' page counts; and if any buffer fails
to load, the merge aborts with no output written (a `none` result models
the abort before `fs.writeFile`, which the source only reaches after every
buffer has been loaded and all pages copied). -/
theorem merger_concatenates_and_aborts {α β : Type} (load : β → Option (List α))
    (bufs : List β) :
    ((∃ b ∈ bufs, load b = none) → mergePdfs load bufs = none) ∧
    (∀ pss : List (List α),
      List.Forall₂ (fun b ps => load b = some ps) bufs pss →
      mergePdfs load bufs = some pss.flatten ∧
      pss.flatten.length = (pss.map List.length).sum) :=
  ⟨mergePdfs_eq_none load bufs,
   fun pss h => ⟨mergePdfs_eq_some load bufs pss h, List.length_flatten pss⟩⟩

theorem merger_concatenates_and_aborts_witness :
    mergePdfs (fun b : Option (List Nat) => b) [some [10, 11], none] = none ∧
    (mergePdfs (fun b : Option (List Nat) => b) [some [10, 11], some [12]] =
        some ([[10, 11], [12]] : List (List Nat)).flatten ∧
      ([[10, 11], [12]] : List (List Nat)).flatten.length =
        (([[10, 11], [12]] : List (List Nat)).map List.length).sum) :=
  ⟨(merger_concatenates_and_aborts (fun b : Option (List Nat) => b)
      [some [10, 11], none]).1 ⟨none, by simp, rfl⟩,
   (merger_concatenates_and_aborts (fun b : Option (List Nat) => b)
      [some [10, 11], some [12]]).2 [[10, 11], [12]]
      (List.Forall₂.cons rfl (List.Forall₂.cons rfl List.Forall₂.nil))⟩

/-- The empty signature matches every buffer. -/
theorem sigMatches_nil (b : List Nat) : sigMatches b [] = true := rfl

/-- A nonempty signature never matches the empty buffer (the JS comparison
sees `undefined` at index 0 and fails). -/
theorem sigMatches_nil_cons (s : Nat) (ss : List Nat) :
    sigMatches [] (s :: ss) = false := by
  simp [sigMatches, List.enum_cons]

/-- Shifting the enumeration start by one while consing onto the buffer
leaves the signature comparison unchanged. -/
theorem all_enumFrom_shift (b : List Nat) (ss : List Nat) : ∀ (a : Nat) (n : Nat),
    (List.enumFrom (n + 1) ss).all (fun p => (a :: b).get? p.1 == some p.2)
      = (List.enumFrom n ss).all (fun p => b.get? p.1 == some p.2) := by
  induction ss generalizing b with
  | nil => intros; rfl
  | cons s ss ih =>
    intro a n
    simp only [List.enumFrom, List.all_cons, List.get?_cons_succ]
    rw [ih b a (n + 1)]

/-- Unfolding one signature byte. -/
theorem sigMatches_cons (a : Nat) (b : List Nat) (s : Nat) (ss : List Nat) :
    sigMatches (a :: b) (s :: ss) = ((a == s) && sigMatches b ss) := by
  simp only [sigMatches, List.enum, List.enumFrom, List.all_cons, List.get?_cons_zero]
  rw [all_enumFrom_shift b ss a 0]
  simp

/-- The JS `every`-with-index comparison succeeds exactly when the
signature is an initial segment of the buffer; in particular a buffer
shorter than the signature simply fails to match, with no out-of-bounds
read. -/
theorem sigMatches_iff (sig : List Nat) : ∀ buffer : List Nat,
    sigMatches buffer sig = true ↔ ∃ r, buffer = sig ++ r := by
  induction sig with
  | nil =>
    intro b
    simp only [sigMatches_nil, List.nil_append, true_iff]
    exact ⟨b, rfl⟩
  | cons s ss ih =>
    intro b
    cases b with
    | nil =>
      simp [sigMatches_nil_cons]
    | cons a b =>
      rw [sigMatches_cons]
      constructor
      · intro h
        obtain ⟨h1, h2⟩ := Bool.and_eq_true_iff.mp h
        obtain ⟨r, hr⟩ := (ih b).mp h2
        have ha : a = s := by simpa using h1
        exact ⟨r, by simp [ha, hr]⟩
      · rintro ⟨r, hr⟩
        simp only [List.cons_append, List.cons.injEq] at hr
        obtain ⟨ha, hb⟩ := hr
        subst ha
        simp [Bool.and_eq_true_iff, (ih b).mpr ⟨r, hb⟩]

/-- C6: the sniffer classifies a `%PDF`-leading buffer as pdf and a
PNG-magic-leading buffer as image; the modern container format is handled
by the secondary check at bytes 4..12 (`ftypheic`/`ftypmif1`); a buffer
matching none of the known signatures — neither the leading-byte table nor
the secondary offset check — fails with the unsupported-file-type error,
whose message is distinct from the transport (download) and permission
(probe) error messages. -/
theorem sniffer_signature_classification (buffer : List Nat) :
    (buffer.take 4 = pdfMagic → getFileType buffer = .ok .pdf) ∧
    ((∃ r, buffer = [0x89, 0x50, 0x4e, 0x47] ++ r) → getFileType buffer = .ok .image) ∧
    (buffer.take 4 ≠ pdfMagic →
      (∀ s ∈ signatures, sigMatches buffer s.2 = false) →
      ((buffer.drop 4).take 8 = ftypheicBytes ∨ (buffer.drop 4).take 8 = ftypmif1Bytes) →
      getFileType buffer = .ok .image) ∧
    (buffer.take 4 ≠ pdfMagic →
      (∀ s ∈ signatures, sigMatches buffer s.2 = false) →
      (buffer.drop 4).take 8 ≠ ftypheicBytes →
      (buffer.drop 4).take 8 ≠ ftypmif1Bytes →
      getFileType buffer = .error unsupportedMsg) ∧
    (∀ m : List Char, unsupportedMsg ≠ lc ("Failed to download file: ") ++ m) ∧
    unsupportedMsg ≠ lc ("Permission denied") ∧
    unsupportedMsg ≠ lc ("Permission denied or file not accessible") ∧
    unsupportedMsg ≠ lc ("File not found") ∧
    unsupportedMsg ≠ lc ("Network error") ∧
    unsupportedMsg ≠ lc ("Connection reset") := by
  refine ⟨?_, ?_, ?_, ?_, ?_, by decide, by decide, by decide, by decide, by decide⟩
  · intro h
    simp [getFileType, h]
  · rintro ⟨r, hr⟩
    subst hr
    have hmatch : sigMatches ([0x89, 0x50, 0x4e, 0x47] ++ r) [0x89, 0x50, 0x4e, 0x47] = true :=
      (sigMatches_iff [0x89, 0x50, 0x4e, 0x47] _).mpr ⟨r, rfl⟩
    have hany : signatures.any (fun s => sigMatches ([0x89, 0x50, 0x4e, 0x47] ++ r) s.2) = true :=
      List.any_eq_true.mpr ⟨(lc ("png"), [0x89, 0x50, 0x4e, 0x47]), by simp [signatures], hmatch⟩
    simp only [List.cons_append, List.nil_append] at hany
    simp [getFileType, pdfMagic, hany]
  · intro h1 h2 h3
    have hany : signatures.any (fun s => sigMatches buffer s.2) = false :=
      List.any_eq_false.mpr (fun s hs => by simp [h2 s hs])
    simp [getFileType, h1, hany, h3]
  · intro h1 h2 h3 h4
    have hany : signatures.any (fun s => sigMatches buffer s.2) = false :=
      List.any_eq_false.mpr (fun s hs => by simp [h2 s hs])
    simp [getFileType, h1, hany, h3, h4]
  · intro m h
    have h11 : unsupportedMsg.get? 11 = (lc ("Failed to download file: ") ++ m).get? 11 := by
      rw [h]
    rw [List.get?_append (by decide)] at h11
    exact absurd h11 (by decide)

theorem sniffer_signature_classification_witness :
    getFileType [0x25, 0x50, 0x44, 0x46, 0x31] = .ok .pdf ∧
    getFileType [0x89, 0x50, 0x4e, 0x47, 0x0d, 0x0a] = .ok .image ∧
    getFileType [0x00, 0x00, 0x00, 0x20, 0x66, 0x74, 0x79, 0x70, 0x68, 0x65, 0x69, 0x63] =
      .ok .image ∧
    getFileType [0x7f, 0x45, 0x4c, 0x46] = .error unsupportedMsg ∧
    unsupportedMsg ≠ lc ("Failed to download file: ") ++ lc ("timeout") :=
  ⟨(sniffer_signature_classification [0x25, 0x50, 0x44, 0x46, 0x31]).1 (by decide),
   (sniffer_signature_classification [0x89, 0x50, 0x4e, 0x47, 0x0d, 0x0a]).2.1
     ⟨[0x0d, 0x0a], rfl⟩,
   (sniffer_signature_classification
       [0x00, 0x00, 0x00, 0x20, 0x66, 0x74, 0x79, 0x70, 0x68, 0x65, 0x69, 0x63]).2.2.1
     (by decide) (by decide) (by decide),
   (sniffer_signature_classification [0x7f, 0x45, 0x4c, 0x46]).2.2.2.1
     (by decide) (by decide) (by decide) (by decide),
   (sniffer_signature_classification []).2.2.2.2.1 (lc ("timeout"))⟩

/-- C9: the sniffer is total over arbitrary byte buffers — every buffer is
classified pdf, image, or rejected with the unsupported-file-type error;
a signature comparison against a buffer shorter than the signature simply
fails to match (no out-of-bounds read, cf. `sigMatches_iff`); and the
empty buffer is rejected as unsupported rather than crashing. -/
theorem sniffer_total (buffer : List Nat) :
    (getFileType buffer = .ok .pdf ∨ getFileType buffer = .ok .image ∨
      getFileType buffer = .error unsupportedMsg) ∧
    (∀ sig : List Nat, buffer.length < sig.length → sigMatches buffer sig = false) ∧
    getFileType [] = .error unsupportedMsg := by
  refine ⟨?_, ?_, rfl⟩
  · unfold getFileType
    split_ifs <;> simp
  · intro sig hlen
    cases h : sigMatches buffer sig with
    | false => rfl
    | true =>
      obtain ⟨r, hr⟩ := (sigMatches_iff sig buffer).mp h
      subst hr
      simp [List.length_append] at hlen

theorem sniffer_total_witness :
    ([0x89] : List Nat).length < ([0x89, 0x50, 0x4e, 0x47] : List Nat).length ∧
    sigMatches [0x89] [0x89, 0x50, 0x4e, 0x47] = false :=
  ⟨by decide, (sniffer_total [0x89]).2.1 [0x89, 0x50, 0x4e, 0x47] (by decide)⟩

/-- C10: URL filtering does not guarantee identifier extraction — the token
`https://drive.google.com/uc?id=` contains the Drive host marker and the
literal substring `id=` with no identifier characters following, so the
extractor accepts it (it survives `parseUrls` and proceeds into the
pipeline), yet none of the three patterns of `extractFileId` matches and
extraction fails (the `none` that models the thrown
`Invalid Google Drive URL` error). -/
theorem accepted_url_can_fail_extraction :
    containsSeq (lc ("https://drive.google.com/uc?id=")) (lc ("drive.google.com")) = true ∧
    containsSeq (lc ("https://drive.google.com/uc?id=")) (lc ("id=")) = true ∧
    parseUrls (lc ("https://drive.google.com/uc?id=")) =
      [lc ("https://drive.google.com/uc?id=")] ∧
    extractFileId (lc ("https://drive.google.com/uc?id=")) = none := by
  refine ⟨by decide, by decide, by decide, by decide⟩

/-- C8: whenever the input string yields exactly one extracted URL (valid
or not), the direct-mode action returns the informational notice for every
environment and every state of the output path — no oracle (network,
download, conversion, load) is consulted and no error is raised. -/
theorem single_url_informational {α : Type} (env : Env α) (outputExists : Bool)
    (input : List Char) (u : List Char) (h : parseUrls input = [u]) :
    directAction env outputExists input = .singleUrlNotice u := by
  simp [directAction, h]

theorem single_url_informational_witness :
    parseUrls (lc ("x https://drive.google.com/file/d/only1 y")) =
      [lc ("https://drive.google.com/file/d/only1")] ∧
    directAction
        (α := Nat)
        ⟨fun _ => .resp true, fun _ => .error [], fun _ => .error [], fun _ => none⟩
        true (lc ("x https://drive.google.com/file/d/only1 y")) =
      .singleUrlNotice (lc ("https://drive.google.com/file/d/only1")) :=
  ⟨by decide,
   single_url_informational
     ⟨fun _ => .resp true, fun _ => .error [], fun _ => .error [], fun _ => none⟩
     true (lc ("x https://drive.google.com/file/d/only1 y"))
     (lc ("https://drive.google.com/file/d/only1")) (by decide)⟩

/-- C4 (code evaluation at the failing inputs): every fatal pipeline
condition is answered by `process.exit(1)` from inside `processFiles`
itself — for a batch access-check failure, for the all-files-failed
condition, and for a merge error — so the error never propagates to the
interactive loop's handler and the process terminates in interactive mode
just as in direct mode. -/
theorem processFiles_exits_on_all_fatal_conditions :
    processFilesExits (α := Nat)
        ⟨fun _ => .err (some 403) none [], fun _ => .error [], fun _ => .error [],
          fun _ => none⟩
        [lc ("https://drive.google.com/file/d/aa"), lc ("https://drive.google.com/file/d/bb")]
      = true ∧
    processFilesExits (α := Nat)
        ⟨fun _ => .resp false, fun _ => .error (lc ("socket hang up")), fun _ => .error [],
          fun _ => none⟩
        [lc ("https://drive.google.com/file/d/aa"), lc ("https://drive.google.com/file/d/bb")]
      = true ∧
    processFilesExits (α := Nat)
        ⟨fun _ => .resp false, fun _ => .ok [0x25, 0x50, 0x44, 0x46], fun _ => .error [],
          fun _ => none⟩
        [lc ("https://drive.google.com/file/d/aa"), lc ("https://drive.google.com/file/d/bb")]
      = true := by
  refine ⟨by decide, by decide, by decide⟩

/-- C2: if at least one access probe fails, `processFiles` throws the
permission-check error reporting exactly the failing probes (each
`AccessResult` carries its URL and its specific reason) and performs no
download for any URL in the batch; conversely a nonempty download trace
implies every probe succeeded — downloading begins only when all probes
succeed. -/
theorem probe_gate_all_or_nothing {α : Type} (env : Env α) (urls : List (List Char)) :
    ((∃ t ∈ accessTests env urls, t.success = false) →
      (processFiles env urls).result =
          ProcResult.probeFailed ((accessTests env urls).filter (fun t => !t.success)) ∧
      (processFiles env urls).downloads = []) ∧
    ((processFiles env urls).downloads ≠ [] →
      ∀ t ∈ accessTests env urls, t.success = true) := by
  constructor
  · rintro ⟨t, ht, hts⟩
    have hmem : t ∈ (accessTests env urls).filter (fun t => !t.success) :=
      List.mem_filter.mpr ⟨ht, by simp [hts]⟩
    have hc : 0 < ((accessTests env urls).filter (fun t => !t.success)).length :=
      List.length_pos.mpr (fun he => by simp [he] at hmem)
    constructor <;> simp [processFiles, hc]
  · intro hdl t ht
    by_cases hc : 0 < ((accessTests env urls).filter (fun t => !t.success)).length
    · exfalso
      apply hdl
      simp [processFiles, hc]
    · have hnil : (accessTests env urls).filter (fun t => !t.success) = [] := by
        cases h : (accessTests env urls).filter (fun t => !t.success) with
        | nil => rfl
        | cons a l => rw [h] at hc; simp at hc
      have := List.filter_eq_nil.mp hnil t ht
      simpa using this

/-- A two-URL batch used to instantiate the batch-level theorems. -/
def urlsW : List (List Char) :=
  [lc ("https://drive.google.com/file/d/aa"), lc ("https://drive.google.com/file/d/bb")]

/-- An environment whose probe always reports HTTP 404. -/
def envProbeFail : Env Nat :=
  ⟨fun _ => .err (some 404) none [], fun _ => .error [], fun _ => .error [], fun _ => none⟩

/-- An environment in which every probe succeeds, the first file downloads
as a `%PDF` buffer, the second fails to download, and every produced
buffer loads as a one-page document. -/
def envMixed : Env Nat :=
  ⟨fun _ => .resp false,
   fun u => if u = getDirectDownloadUrl (lc ("aa")) then .ok [0x25, 0x50, 0x44, 0x46]
            else .error (lc ("socket hang up")),
   fun _ => .error [],
   fun _ => some [7]⟩

theorem probe_gate_all_or_nothing_witness :
    ((processFiles envProbeFail urlsW).result =
        ProcResult.probeFailed
          ((accessTests envProbeFail urlsW).filter (fun t => !t.success)) ∧
      (processFiles envProbeFail urlsW).downloads = []) ∧
    ((processFiles envMixed urlsW).downloads ≠ [] ∧
      ∀ t ∈ accessTests envMixed urlsW, t.success = true) :=
  ⟨(probe_gate_all_or_nothing envProbeFail urlsW).1
      ⟨testUrlAccess envProbeFail.net (lc ("https://drive.google.com/file/d/aa")) 1,
        by decide, by decide⟩,
   by decide,
   (probe_gate_all_or_nothing envMixed urlsW).2 (by decide)⟩

/-- The main loop visits every URL: each one contributes its buffer to
`pdfBuffers` on success and its recorded failure to `failedFiles` on
error, both in input order. -/
theorem mainLoopFrom_spec {α : Type} (env : Env α) :
    ∀ (urls : List (List Char)) (i : Nat),
      (mainLoopFrom env i urls).pdfBuffers =
          (List.enumFrom i urls).filterMap (fun p => ((processOne env p.2).2).toOption) ∧
      (mainLoopFrom env i urls).failedFiles =
          (List.enumFrom i urls).filterMap (fun p =>
            match (processOne env p.2).2 with
            | .error e => some ⟨p.2, p.1 + 1, e⟩
            | .ok _ => none) := by
  intro urls
  induction urls with
  | nil => intro i; exact ⟨rfl, rfl⟩
  | cons u rest ih =>
    intro i
    obtain ⟨ih1, ih2⟩ := ih (i + 1)
    cases hr : (processOne env u).2 with
    | ok buf =>
      simp [mainLoopFrom, hr, List.enumFrom, List.filterMap_cons, ih1, ih2,
        Except.toOption]
    | error e =>
      simp [mainLoopFrom, hr, List.enumFrom, List.filterMap_cons, ih1, ih2,
        Except.toOption]

/-- C3: once the access probe has passed, a per-file failure does not abort
the batch — every URL is processed, the failing files' errors are recorded
in `failedFiles` and the successful files' buffers collected in
`pdfBuffers`, both in original input order; the attempt fails with the
all-files-failed error exactly when zero files succeeded (in which case no
merge is performed), and otherwise the merge runs over exactly the
successful subset. -/
theorem per_file_failures_tolerated {α : Type} (env : Env α) (urls : List (List Char))
    (hall : ∀ t ∈ accessTests env urls, t.success = true) :
    (mainLoop env urls).pdfBuffers =
        urls.enum.filterMap (fun p => ((processOne env p.2).2).toOption) ∧
    (mainLoop env urls).failedFiles =
        urls.enum.filterMap (fun p =>
          match (processOne env p.2).2 with
          | .error e => some ⟨p.2, p.1 + 1, e⟩
          | .ok _ => none) ∧
    ((processFiles env urls).result = .allFailed (mainLoop env urls).failedFiles ↔
        (mainLoop env urls).pdfBuffers = []) ∧
    ((mainLoop env urls).pdfBuffers ≠ [] →
      (processFiles env urls).result =
        match mergePdfs env.load (mainLoop env urls).pdfBuffers with
        | none => ProcResult.mergeError
        | some pages => ProcResult.success pages (mainLoop env urls).failedFiles) := by
  have hnil : (accessTests env urls).filter (fun t => !t.success) = [] :=
    List.filter_eq_nil.mpr (fun t ht => by simp [hall t ht])
  have hgate : ¬ 0 < ((accessTests env urls).filter (fun t => !t.success)).length := by
    simp [hnil]
  obtain ⟨h1, h2⟩ := mainLoopFrom_spec env urls 0
  have hproc : processFiles env urls =
      (if (mainLoop env urls).pdfBuffers.length = 0 then
        ⟨.allFailed (mainLoop env urls).failedFiles, (mainLoop env urls).downloads⟩
      else
        match mergePdfs env.load (mainLoop env urls).pdfBuffers with
        | none => ⟨.mergeError, (mainLoop env urls).downloads⟩
        | some pages =>
          ⟨.success pages (mainLoop env urls).failedFiles,
            (mainLoop env urls).downloads⟩) := by
    simp [processFiles, hgate]
  refine ⟨h1, h2, ?_, ?_⟩
  · rw [hproc]
    by_cases hb : (mainLoop env urls).pdfBuffers.length = 0
    · simp [hb, List.length_eq_zero.mp hb]
    · have hb' : (mainLoop env urls).pdfBuffers ≠ [] := by
        intro he
        exact hb (by simp [he])
      rw [if_neg hb]
      cases hm : mergePdfs env.load (mainLoop env urls).pdfBuffers with
      | none => simp [hb']
      | some pages => simp [hb']
  · intro hb
    have hlen : ¬ (mainLoop env urls).pdfBuffers.length = 0 := by
      simpa [List.length_eq_zero] using hb
    rw [hproc, if_neg hlen]
    cases hm : mergePdfs env.load (mainLoop env urls).pdfBuffers with
    | none => simp
    | some pages => simp

theorem per_file_failures_tolerated_witness :
    (∀ t ∈ accessTests envMixed urlsW, t.success = true) ∧
    ((mainLoop envMixed urlsW).pdfBuffers =
        urlsW.enum.filterMap (fun p => ((processOne envMixed p.2).2).toOption) ∧
      (mainLoop envMixed urlsW).failedFiles =
        urlsW.enum.filterMap (fun p =>
          match (processOne envMixed p.2).2 with
          | .error e => some ⟨p.2, p.1 + 1, e⟩
          | .ok _ => none) ∧
      ((processFiles envMixed urlsW).result =
          .allFailed (mainLoop envMixed urlsW).failedFiles ↔
        (mainLoop envMixed urlsW).pdfBuffers = []) ∧
      ((mainLoop envMixed urlsW).pdfBuffers ≠ [] →
        (processFiles envMixed urlsW).result =
          match mergePdfs envMixed.load (mainLoop envMixed urlsW).pdfBuffers with
          | none => ProcResult.mergeError
          | some pages =>
            ProcResult.success pages (mainLoop envMixed urlsW).failedFiles)) :=
  ⟨by decide, per_file_failures_tolerated envMixed urlsW (by decide)⟩

/-- Predicate `startsWithSeq s pat` succeeds exactly when `pat` is an initial
segment of `s`. -/
theorem startsWithSeq_iff (pat : List Char) : ∀ s : List Char,
    startsWithSeq s pat = true ↔ ∃ r, s = pat ++ r := by
  induction pat with
  | nil =>
    intro s
    constructor
    · intro _
      exact ⟨s, rfl⟩
    · intro _
      cases s <;> rfl
  | cons p ps ih =>
    intro s
    cases s with
    | nil => simp [startsWithSeq]
    | cons c cs =>
      simp only [startsWithSeq, Bool.and_eq_true, decide_eq_true_eq, ih cs]
      constructor
      · rintro ⟨hc, r, hr⟩
        exact ⟨r, by simp [hc, hr]⟩
      · rintro ⟨r, hr⟩
        simp only [List.cons_append, List.cons.injEq] at hr
        exact ⟨hr.1, r, hr.2⟩

/-- Predicate `containsSeq s pat` (the model of `includes`) succeeds exactly when
`pat` occurs contiguously somewhere in `s`. -/
theorem containsSeq_iff (pat : List Char) : ∀ s : List Char,
    containsSeq s pat = true ↔ ∃ l r, s = l ++ pat ++ r := by
  intro s
  induction s with
  | nil =>
    simp only [containsSeq, List.isEmpty_iff]
    constructor
    · intro h
      exact ⟨[], [], by simp [h]⟩
    · rintro ⟨l, r, hr⟩
      obtain ⟨h1, h2⟩ := List.append_eq_nil.mp hr.symm
      exact (List.append_eq_nil.mp h1).2
  | cons c cs ih =>
    simp only [containsSeq, Bool.or_eq_true, startsWithSeq_iff pat (c :: cs), ih]
    constructor
    · rintro (⟨r, hr⟩ | ⟨l, r, hr⟩)
      · exact ⟨[], r, by simp [hr]⟩
      · exact ⟨c :: l, r, by simp [hr]⟩
    · rintro ⟨l, r, hr⟩
      cases l with
      | nil =>
        left
        exact ⟨r, by simpa using hr⟩
      | cons x l =>
        right
        simp only [List.cons_append, List.cons.injEq] at hr
        exact ⟨l, r, hr.2⟩

/-- C5 counterexample: the token `https://drive.google.com/d/abc` contains
the Drive host marker and a bare `/d/<id>` path segment (the `/d/` fallback
pattern of `extractFileId` would even capture the id `abc`), yet the URL
extractor rejects it — `parseUrls` returns the empty list — so the
extractor does not accept the bare `/d/<id>` shape. -/
theorem url_filter_rejects_bare_d_segment :
    containsSeq (lc ("https://drive.google.com/d/abc")) (lc ("drive.google.com")) = true ∧
    findCapture (lc ("/d/")) (lc ("https://drive.google.com/d/abc")) = some (lc ("abc")) ∧
    parseUrls (lc ("https://drive.google.com/d/abc")) = [] := by
  refine ⟨by decide, by decide, by decide⟩

/-- C5 (amended): the URL extractor accepts exactly the split tokens that
contain the Drive host marker together with either the literal substring
`/file/d/` or the literal substring `id=` (no identifier characters are
required after them); the bare `/d/<id>` shape is a fallback pattern of
identifier extraction only, not of URL acceptance.  Every accepted token is
returned by `parseUrls` and so proceeds into the pipeline. -/
theorem url_filter_characterization (input : List Char) (u : List Char) :
    u ∈ parseUrls input ↔
      u ∈ splitTokens input ∧
      (∃ l r, u = l ++ lc ("drive.google.com") ++ r) ∧
      ((∃ l r, u = l ++ lc ("/file/d/") ++ r) ∨ (∃ l r, u = l ++ lc ("id=") ++ r)) := by
  rw [parseUrls, List.mem_filter, isDriveUrl]
  simp only [Bool.and_eq_true, Bool.or_eq_true, containsSeq_iff]

/-- The split always yields at least one piece. -/
theorem splitAux_ne_nil : ∀ s : List Char, splitAux s ≠ [] := by
  intro s
  cases s with
  | nil => simp [splitAux]
  | cons c cs =>
    simp only [splitAux]
    cases h : splitAux cs with
    | nil => simp
    | cons g gs =>
      by_cases hc : isSepChar c <;> simp [hc]

/-- Every split piece is free of separator characters. -/
theorem splitAux_sepFree : ∀ (s p : List Char), p ∈ splitAux s →
    ∀ c ∈ p, isSepChar c = false := by
  intro s
  induction s with
  | nil =>
    intro p hp c hc
    simp only [splitAux, List.mem_singleton] at hp
    subst hp
    simp at hc
  | cons a s ih =>
    intro p hp c hc
    cases hsp : splitAux s with
    | nil => exact absurd hsp (splitAux_ne_nil s)
    | cons g gs =>
      simp only [splitAux, hsp] at hp
      by_cases ha : isSepChar a
      · simp only [ha, if_pos] at hp
        rcases List.mem_cons.mp hp with hp | hp
        · subst hp; simp at hc
        · exact ih p (by rw [hsp]; exact hp) c hc
      · simp only [ha, if_neg, if_false] at hp
        rcases List.mem_cons.mp hp with hp | hp
        · subst hp
          rcases List.mem_cons.mp hc with hc | hc
          · subst hc
            exact Bool.not_eq_true _ ▸ (by simpa using ha)
          · exact ih g (by rw [hsp]; exact List.mem_cons_self g gs) c hc
        · exact ih p (by rw [hsp]; exact List.mem_cons.mpr (Or.inr hp)) c hc

/-- Applying `dropWhile` is the identity on a list none of whose elements satisfy
the predicate. -/
theorem dropWhile_eq_self_of_none {p : Char → Bool} : ∀ t : List Char,
    (∀ c ∈ t, p c = false) → t.dropWhile p = t := by
  intro t h
  cases t with
  | nil => rfl
  | cons a t => simp [List.dropWhile_cons, h a (List.mem_cons_self a t)]

/-- Trimming is the identity on a separator-free token (whitespace
characters are separator characters). -/
theorem trim_of_sepFree (t : List Char) (h : ∀ c ∈ t, isSepChar c = false) :
    trim t = t := by
  have hw : ∀ c ∈ t, jsWhitespace c = false := by
    intro c hc
    have hs := h c hc
    cases hj : jsWhitespace c
    · rfl
    · rw [isSepChar, hj] at hs
      simp at hs
  rw [trim, dropWhile_eq_self_of_none t hw,
    dropWhile_eq_self_of_none t.reverse (fun c hc => hw c (List.mem_reverse.mp hc)),
    List.reverse_reverse]

/-- A leading separator character contributes no token. -/
theorem splitTokens_cons_sep (c : Char) (s : List Char) (hc : isSepChar c = true) :
    splitTokens (c :: s) = splitTokens s := by
  cases hsp : splitAux s with
  | nil => exact absurd hsp (splitAux_ne_nil s)
  | cons g gs =>
    have h1 : splitAux (c :: s) = [] :: splitAux s := by
      simp [splitAux, hsp, hc]
    rw [splitTokens, h1, splitTokens]
    simp [trim]

/-- Appending a separator-free nonempty token in front of an input that is
empty or starts with a separator prepends exactly that token. -/
theorem splitAux_append_sepFree : ∀ (u s : List Char),
    (∀ c ∈ u, isSepChar c = false) →
    splitAux (u ++ s) = (u ++ (splitAux s).headI) :: (splitAux s).tail := by
  intro u
  induction u with
  | nil =>
    intro s _
    cases hsp : splitAux s with
    | nil => exact absurd hsp (splitAux_ne_nil s)
    | cons g gs => simp [hsp]
  | cons a u ih =>
    intro s h
    have ha : isSepChar a = false := h a (List.mem_cons_self a u)
    have ih' := ih s (fun c hc => h c (List.mem_cons.mpr (Or.inr hc)))
    simp [splitAux, ih', ha]

/-- A separator-free nonempty token followed by an empty remainder or a
remainder that starts with a separator becomes exactly one token. -/
theorem splitTokens_token_append (u s : List Char) (hu : u ≠ [])
    (hfree : ∀ c ∈ u, isSepChar c = false)
    (hs : s = [] ∨ ∃ d s', s = d :: s' ∧ isSepChar d = true) :
    splitTokens (u ++ s) = u :: splitTokens s := by
  have hlen : 0 < u.length := List.length_pos.mpr hu
  rcases hs with rfl | ⟨d, s', rfl, hd⟩
  · have h1 := splitAux_append_sepFree u [] hfree
    rw [List.append_nil] at h1
    rw [List.append_nil, splitTokens, h1]
    simp only [splitAux, List.headI, List.tail, List.append_nil, List.map_cons,
      List.map_nil]
    rw [trim_of_sepFree u hfree]
    simp [hlen]
    rfl
  · have h1 := splitAux_append_sepFree u (d :: s') hfree
    have h2 : splitAux (d :: s') = [] :: splitAux s' := by
      cases hsp : splitAux s' with
      | nil => exact absurd hsp (splitAux_ne_nil s')
      | cons g gs => simp [splitAux, hsp, hd]
    rw [h2] at h1
    simp only [List.headI, List.tail, List.append_nil] at h1
    rw [splitTokens, h1, List.map_cons]
    rw [trim_of_sepFree u hfree]
    rw [splitTokens_cons_sep d s' hd, splitTokens]
    simp [hlen]

/-- A run of separator characters in front of the input contributes no
token. -/
theorem splitTokens_sep_run : ∀ (sep s : List Char),
    (∀ c ∈ sep, isSepChar c = true) → splitTokens (sep ++ s) = splitTokens s := by
  intro sep
  induction sep with
  | nil => intro s _; rfl
  | cons d sep ih =>
    intro s h
    rw [List.cons_append, splitTokens_cons_sep d _ (h d (List.mem_cons_self d sep))]
    exact ih s (fun c hc => h c (List.mem_cons.mpr (Or.inr hc)))

/-- Joining a list of strings with a fixed separator, the model of the
re-separated output of the extractor (`us.join(sep)` for any accepted
separator). -/
def joinSep (sep : List Char) : List (List Char) → List Char
  | [] => []
  | [u] => u
  | u :: v :: us => u ++ sep ++ joinSep sep (v :: us)

/-- Splitting the separator-joined list of nonempty separator-free tokens
recovers exactly that list. -/
theorem splitTokens_joinSep (sep : List Char) (hne : sep ≠ [])
    (hsep : ∀ c ∈ sep, isSepChar c = true) :
    ∀ us : List (List Char), (∀ u ∈ us, u ≠ [] ∧ ∀ c ∈ u, isSepChar c = false) →
      splitTokens (joinSep sep us) = us := by
  intro us
  induction us with
  | nil => intro _; rfl
  | cons u vs ih =>
    intro h
    obtain ⟨hu, hufree⟩ := h u (List.mem_cons_self u vs)
    cases vs with
    | nil =>
      have := splitTokens_token_append u [] hu hufree (Or.inl rfl)
      simpa [joinSep] using this
    | cons v ws =>
      obtain ⟨d, sep', rfl⟩ := List.exists_cons_of_ne_nil hne
      have hd : isSepChar d = true := hsep d (List.mem_cons_self d sep')
      have hstep : splitTokens (u ++ ((d :: sep') ++ joinSep (d :: sep') (v :: ws))) =
          u :: splitTokens ((d :: sep') ++ joinSep (d :: sep') (v :: ws)) :=
        splitTokens_token_append u _ hu hufree
          (Or.inr ⟨d, sep' ++ joinSep (d :: sep') (v :: ws), by simp, hd⟩)
      rw [joinSep, List.append_assoc, hstep,
        splitTokens_sep_run (d :: sep') _ hsep,
        ih (fun w hw => h w (List.mem_cons.mpr (Or.inr hw)))]

/-- Every token produced by the splitter is nonempty and separator-free. -/
theorem splitTokens_tokens_sepFree (input : List Char) :
    ∀ u ∈ splitTokens input, u ≠ [] ∧ ∀ c ∈ u, isSepChar c = false := by
  intro u hu
  obtain ⟨hmem, hlen⟩ := List.mem_filter.mp hu
  obtain ⟨p, hp, hpt⟩ := List.mem_map.mp hmem
  have hfree : ∀ c ∈ p, isSepChar c = false := splitAux_sepFree input p hp
  have ht : trim p = p := trim_of_sepFree p hfree
  rw [← hpt, ht] at hlen ⊢
  simp only [decide_eq_true_eq] at hlen
  exact ⟨List.length_pos.mp hlen, hfree⟩

/-- C7: URL extraction is a pure function of its input (it is a Lean
function of the input string alone, so determinism is definitional), and
it is idempotent on its result — joining the extracted URLs back together
with any accepted separator (any nonempty string of separator characters)
and extracting again yields the same list of URLs. -/
theorem parseUrls_idempotent (input sep : List Char) (hne : sep ≠ [])
    (hsep : ∀ c ∈ sep, isSepChar c = true) :
    parseUrls (joinSep sep (parseUrls input)) = parseUrls input := by
  have hurls : ∀ u ∈ parseUrls input, u ≠ [] ∧ ∀ c ∈ u, isSepChar c = false :=
    fun u hu => splitTokens_tokens_sepFree input u (List.mem_filter.mp hu).1
  rw [parseUrls, splitTokens_joinSep sep hne hsep (parseUrls input) hurls]
  refine List.filter_eq_self.mpr ?_
  intro u hu
  exact (List.mem_filter.mp hu).2

theorem parseUrls_idempotent_witness :
    (['\n'] : List Char) ≠ [] ∧
    (∀ c ∈ (['\n'] : List Char), isSepChar c = true) ∧
    parseUrls (joinSep ['\n'] (parseUrls
        (lc ("a https://drive.google.com/file/d/x1 drive.google.com/uc?id=y2 b")))) =
      parseUrls (lc ("a https://drive.google.com/file/d/x1 drive.google.com/uc?id=y2 b")) :=
  ⟨by decide, by decide,
   parseUrls_idempotent
     (lc ("a https://drive.google.com/file/d/x1 drive.google.com/uc?id=y2 b"))
     ['\n'] (by decide) (by decide)⟩
